import Mathlib

/-!
Verification of the job-process persistence layer.

The development shallowly embeds the TypeScript sources:
* `ProcessManager` (src/process/process_manager.ts): name normalization and
  get-or-create logic for Process and Job rows, backed by in-memory indices.
* `Machine` (src/process/machine.ts and its sibling with the cache methods):
  machine-scoped log/cache appends and queries.
* `Job` (the abstract facade): the `syncCache` materialized-view rebuild.

Conventions of the embedding:
* JS objects used as dictionaries become insertion-ordered association lists
  (`dictPut` / `dictGet`); the claims proved here never depend on the special
  iteration order of integer-like JS keys, so insertion order is adequate.
* The backing store (Sequelize over SQL) is modelled by a `Storage` record of
  table rows plus per-table autoincrement counters.  `findOne` is first match,
  `findAll ... order createdAt ASC` is a stable sort of the matching rows, `count` is the length of the matching rows, `create` appends a row
  with the next id.  A `fail` field, when set, makes every storage call raise
  that error, modelling a failing collaborator.
* Every public method of the layer wraps an `async` executor inside
  `new Promise((resolve) => ...)`.  Per JavaScript semantics an async executor
  never throws synchronously, so when an awaited storage call rejects the
  outer promise is never rejected: the rejection is lost and the promise stays
  pending forever.  The same happens when the executor finishes without
  calling `resolve`.  `PResult` captures the three observable outcomes of such
  a promise: `resolved`, `rejected` (never produced by this code, see above),
  and `unsettled`.
* Machine integers (row ids, unix timestamps) are far from any overflow in
  every scenario considered, so they are modelled as `Nat`.
* JS `String.prototype.toLowerCase` is modelled by `Char.toLower` (ASCII
  letters), and the `\s` regex class / `trim` by the ASCII whitespace set
  `isJsSpace`; all names involved in the claims are ASCII.
-/

namespace JobProcess

/-! ## JS string primitives -/

/-- ASCII part of the JS `\s` class and of `String.prototype.trim`. -/
def isJsSpace (c : Char) : Bool :=
  c = ' ' || c = '\t' || c = '\n' || c = '\r' || c = '\x0b' || c = '\x0c'

/-- The character class `[\s\*\,\.\-]` of the first `replace` in
`formatProcessName`. -/
def isSepChar (c : Char) : Bool :=
  isJsSpace c || c = '*' || c = ',' || c = '.' || c = '-'

/-- The character class `[\-]` of the second `replace` in
`formatProcessName`. -/
def isDashChar (c : Char) : Bool :=
  c = '-'

/-- `String.prototype.trim` on a character list: drop leading and trailing
whitespace. -/
def trimChars (l : List Char) : List Char :=
  ((l.dropWhile isJsSpace).reverse.dropWhile isJsSpace).reverse

/-- `replace(/[class]+/g, '-')`: every maximal run of characters of the class
`p` is replaced by a single dash.  The boolean argument records whether the
previous character belonged to such a run. -/
def collapseRuns (p : Char → Bool) : Bool → List Char → List Char
  | _, [] => []
  | prev, c :: cs =>
    if p c then
      if prev then collapseRuns p true cs
      else '-' :: collapseRuns p true cs
    else c :: collapseRuns p false cs

/-- `ProcessManager.formatProcessName` (process_manager.ts lines 52-60) on a
character list: trim, lower-case, collapse separator runs to `-`, trim,
collapse dash runs to `-`, trim. -/
def formatName (l : List Char) : List Char :=
  trimChars (collapseRuns isDashChar false
    (trimChars (collapseRuns isSepChar false ((trimChars l).map Char.toLower))))

/-- `ProcessManager.formatProcessName`, the name normalizer. -/
def formatProcessName (s : String) : String :=
  ⟨formatName s.data⟩

/-- `ProcessManager.formatJobName` delegates to `formatProcessName`
(process_manager.ts lines 65-67). -/
def formatJobName (s : String) : String :=
  formatProcessName s

/-! ## Records (src/models) -/

/-- A row of the `processes` table (models/process.ts). -/
structure ProcessRec where
  id : Nat
  name : String
  createdAt : Nat
  updatedAt : Nat
deriving Repr, DecidableEq

/-- A row of the `process_jobs` table (models/process_job.ts). -/
structure ProcessJobRec where
  id : Nat
  process : Nat
  name : String
  createdAt : Nat
  updatedAt : Nat
deriving Repr, DecidableEq

/-- A row of the `process_job_logs` table (models/process_job_log.ts). -/
structure LogRec where
  id : Nat
  process : Nat
  job : Nat
  machine : String
  type : String
  message : String
  createdAt : Nat
  updatedAt : Nat
deriving Repr, DecidableEq

/-- A row of the `process_cache` table (models/process_cache.ts). -/
structure CacheRec where
  id : Nat
  process : Nat
  job : Nat
  machine : String
  key : String
  value : String
  createdAt : Nat
  updatedAt : Nat
deriving Repr, DecidableEq

/-- `Object.values(ProcessLogTypes)` (core/process_log_types.ts). -/
def allLogTypes : List String :=
  ["GENERIC", "WARNING", "ERROR"]

/-! ## The storage collaborator -/

/-- The backing relational store: the four tables, their autoincrement
counters, and a `fail` flag that, when set, makes every call to the store
raise that error (modelling connectivity loss and similar collaborator
failures). -/
structure Storage where
  processRows : List ProcessRec
  jobRows : List ProcessJobRec
  logRows : List LogRec
  cacheRows : List CacheRec
  nextProcessId : Nat
  nextJobId : Nat
  nextLogId : Nat
  nextCacheId : Nat
  fail : Option String
deriving Repr, DecidableEq

def emptyStorage : Storage :=
  ⟨[], [], [], [], 1, 1, 1, 1, none⟩

/-- A value appearing in a SQL `IN (...)` list as Sequelize escapes it: either
a scalar string, or a parenthesized tuple produced from a nested JS array. -/
inductive SqlVal where
  | str : String → SqlVal
  | tuple : List String → SqlVal
deriving Repr, DecidableEq

def sqlValIsTuple : SqlVal → Bool
  | .str _ => false
  | .tuple _ => true

/-- Scalar SQL `IN` membership: a string column value matches a scalar list
element with the same spelling and never matches a tuple element (a tuple in
a scalar `IN` comparison makes the dialect reject the whole query, which is
checked separately via `sqlValIsTuple`). -/
def sqlInMatches (v : String) : SqlVal → Bool
  | .str s => v = s
  | .tuple _ => false

def dbFindOneProcess (db : Storage) (name : String) : Except String (Option ProcessRec) :=
  match db.fail with
  | some e => .error e
  | none => .ok (db.processRows.find? (fun r => r.name = name))

def dbFindOneJob (db : Storage) (pid : Nat) (name : String) :
    Except String (Option ProcessJobRec) :=
  match db.fail with
  | some e => .error e
  | none => .ok (db.jobRows.find? (fun r => r.process = pid && r.name = name))

/-- `ProcessModel.create({id: null, name, createdAt: now, updatedAt: 0})`:
the store assigns the next id and returns the created row. -/
def dbCreateProcess (db : Storage) (name : String) (now : Nat) :
    Except String (ProcessRec × Storage) :=
  match db.fail with
  | some e => .error e
  | none =>
    let p : ProcessRec := ⟨db.nextProcessId, name, now, 0⟩
    .ok (p, { db with
      processRows := db.processRows ++ [p]
      nextProcessId := db.nextProcessId + 1 })

def dbCreateJob (db : Storage) (pid : Nat) (name : String) (now : Nat) :
    Except String (ProcessJobRec × Storage) :=
  match db.fail with
  | some e => .error e
  | none =>
    let j : ProcessJobRec := ⟨db.nextJobId, pid, name, now, 0⟩
    .ok (j, { db with
      jobRows := db.jobRows ++ [j]
      nextJobId := db.nextJobId + 1 })

def dbCreateLog (db : Storage) (pid jid : Nat) (machine logType message : String)
    (now : Nat) : Except String Storage :=
  match db.fail with
  | some e => .error e
  | none =>
    .ok { db with
      logRows := db.logRows ++ [⟨db.nextLogId, pid, jid, machine, logType, message, now, 0⟩]
      nextLogId := db.nextLogId + 1 }

def dbCreateCache (db : Storage) (pid jid : Nat) (machine key value : String)
    (now : Nat) : Except String Storage :=
  match db.fail with
  | some e => .error e
  | none =>
    .ok { db with
      cacheRows := db.cacheRows ++ [⟨db.nextCacheId, pid, jid, machine, key, value, now, 0⟩]
      nextCacheId := db.nextCacheId + 1 }

/-- Whether a cache row matches the where clause
`{process, job, machine, key}`. -/
def cacheKeyMatches (pid jid : Nat) (machine key : String) (r : CacheRec) : Bool :=
  r.process = pid && r.job = jid && r.machine = machine && r.key = key

/-- Whether a cache row matches the where clause `{process, job, machine}`. -/
def cacheMatches (pid jid : Nat) (machine : String) (r : CacheRec) : Bool :=
  r.process = pid && r.job = jid && r.machine = machine

/-- `ORDER BY createdAt ASC` comparison for cache rows. -/
def cacheLe (a b : CacheRec) : Prop :=
  a.createdAt ≤ b.createdAt

instance : DecidableRel cacheLe :=
  fun a b => Nat.decLe a.createdAt b.createdAt

instance : IsTotal CacheRec cacheLe :=
  ⟨fun a b => Nat.le_total a.createdAt b.createdAt⟩

instance : IsTrans CacheRec cacheLe :=
  ⟨fun _ _ _ => Nat.le_trans⟩

/-- `findAll` on `process_cache` with `order: [['createdAt', 'ASC']]`:
the matching rows, stably sorted ascending by creation time. -/
def dbFindAllCacheKey (db : Storage) (pid jid : Nat) (machine key : String) :
    Except String (List CacheRec) :=
  match db.fail with
  | some e => .error e
  | none => .ok (List.insertionSort cacheLe (db.cacheRows.filter (cacheKeyMatches pid jid machine key)))

/-- `findAll` on `process_cache` for a whole (process, job, machine) scope,
ascending by creation time. -/
def dbFindAllCacheAll (db : Storage) (pid jid : Nat) (machine : String) :
    Except String (List CacheRec) :=
  match db.fail with
  | some e => .error e
  | none => .ok (List.insertionSort cacheLe (db.cacheRows.filter (cacheMatches pid jid machine)))

def dbCountCacheKey (db : Storage) (pid jid : Nat) (machine key : String) :
    Except String Nat :=
  match db.fail with
  | some e => .error e
  | none => .ok (db.cacheRows.filter (cacheKeyMatches pid jid machine key)).length

def dbCountCache (db : Storage) (pid jid : Nat) (machine : String) :
    Except String Nat :=
  match db.fail with
  | some e => .error e
  | none => .ok (db.cacheRows.filter (cacheMatches pid jid machine)).length

/-- `ORDER BY createdAt ASC` comparison for log rows. -/
def logLe (a b : LogRec) : Prop :=
  a.createdAt ≤ b.createdAt

instance : DecidableRel logLe :=
  fun a b => Nat.decLe a.createdAt b.createdAt

instance : IsTotal LogRec logLe :=
  ⟨fun a b => Nat.le_total a.createdAt b.createdAt⟩

instance : IsTrans LogRec logLe :=
  ⟨fun _ _ _ => Nat.le_trans⟩

/-- `findAll` on `process_job_logs`: where clause on process (and optionally
job), machine, and a `type IN (...)` condition, ordered ascending by creation
time, with optional SQL `LIMIT`/`OFFSET`.  A tuple element inside the scalar
`IN` list (which Sequelize produces from a nested JS array) makes the dialect
reject the query with an operand-columns error. -/
def dbFindAllLogs (db : Storage) (pid : Nat) (jid : Option Nat) (machine : String)
    (typeIn : List SqlVal) (lim off : Option Nat) : Except String (List LogRec) :=
  match db.fail with
  | some e => .error e
  | none =>
    if typeIn.any sqlValIsTuple then
      .error "ER_OPERAND_COLUMNS: Operand should contain 1 column(s)"
    else
      let rows := db.logRows.filter (fun r =>
        r.process = pid
          && (match jid with | some j => r.job = j | none => true)
          && r.machine = machine
          && typeIn.any (sqlInMatches r.type))
      let rows := List.insertionSort logLe rows
      let rows := match off with | some k => rows.drop k | none => rows
      let rows := match lim with | some n => rows.take n | none => rows
      .ok rows

/-! ## Promise outcomes and in-memory dictionaries -/

/-- Observable outcome of a JS promise: it resolves, rejects, or never
settles.  All methods of this layer build `new Promise` around an `async`
executor; when an awaited storage call rejects, the executor's own promise
rejects but the outer promise was never hooked to it, so the outer promise
stays `unsettled` (the error surfaces only as an unhandled rejection), and the
same happens on executor paths that finish without calling `resolve`. -/
inductive PResult (α : Type) where
  | resolved : α → PResult α
  | rejected : String → PResult α
  | unsettled : PResult α
deriving Repr, DecidableEq

/-- JS object assignment `d[k] = v` for objects used as dictionaries: replace
the binding in place, or append a fresh one. -/
def dictPut {κ α : Type} [DecidableEq κ] (d : List (κ × α)) (k : κ) (v : α) :
    List (κ × α) :=
  match d with
  | [] => [(k, v)]
  | (k', v') :: rest => if k' = k then (k, v) :: rest else (k', v') :: dictPut rest k v

/-- JS object read `d[k]` (`undefined` becomes `none`). -/
def dictGet {κ α : Type} [BEq κ] (d : List (κ × α)) (k : κ) : Option α :=
  d.lookup k

/-! ## ProcessManager (src/process/process_manager.ts) -/

/-- The in-memory indices of a `ProcessManager` instance. -/
structure PMState where
  processList : List (String × ProcessRec)
  jobList : List (String × List (String × ProcessJobRec))
  caches : List (String × List (String × CacheRec))
deriving Repr, DecidableEq

def PMState.empty : PMState :=
  ⟨[], [], []⟩

/-- `ProcessManager.cacheProcess` (lines 73-85): insert the process and
placeholder child dictionaries, each only when not already present. -/
def cacheProcess (pm : PMState) (p : ProcessRec) : PMState :=
  let pl := if (dictGet pm.processList p.name).isSome then pm.processList
    else dictPut pm.processList p.name p
  let cs := if (dictGet pm.caches p.name).isSome then pm.caches
    else dictPut pm.caches p.name []
  let jl := if (dictGet pm.jobList p.name).isSome then pm.jobList
    else dictPut pm.jobList p.name []
  ⟨pl, jl, cs⟩

/-- `ProcessManager.cacheJob` (lines 87-91). -/
def ProcessManager.cacheJob (pm : PMState) (p : ProcessRec) (j : ProcessJobRec) :
    PMState :=
  let pm := cacheProcess pm p
  { pm with jobList :=
      dictPut pm.jobList p.name (dictPut ((dictGet pm.jobList p.name).getD []) j.name j) }

/-- Result of a `ProcessManager` method: the instance state, the storage, and
the outcome of the returned promise. -/
structure PMOut (α : Type) where
  pm : PMState
  db : Storage
  res : PResult α
deriving Repr, DecidableEq

/-- `ProcessManager.getProcess` (lines 96-119).  The argument is NOT
normalized (the normalizing line is commented out in the source).  On the
path that fetches an existing row from storage the source caches the row but
never calls `resolve`, so the promise never settles. -/
def ProcessManager.getProcess (pm : PMState) (db : Storage) (processName : String) :
    PMOut (Option ProcessRec) :=
  if (dictGet pm.processList processName).isNone then
    match dbFindOneProcess db processName with
    | .error _ => ⟨pm, db, .unsettled⟩
    | .ok (some process) => ⟨cacheProcess pm process, db, .unsettled⟩
    | .ok none => ⟨pm, db, .resolved none⟩
  else
    ⟨pm, db, .resolved (dictGet pm.processList processName)⟩

/-- `ProcessManager.createProcess` (lines 125-145): normalize, get, insert
when absent.  Awaiting a promise that never settles leaves the whole method
unsettled. -/
def ProcessManager.createProcess (pm : PMState) (db : Storage) (processName : String)
    (now : Nat) : PMOut ProcessRec :=
  let name := formatProcessName processName
  match ProcessManager.getProcess pm db name with
  | ⟨pm', db', .resolved (some p)⟩ => ⟨pm', db', .resolved p⟩
  | ⟨pm', db', .resolved none⟩ =>
    match dbCreateProcess db' name now with
    | .error _ => ⟨pm', db', .unsettled⟩
    | .ok (p, db'') => ⟨cacheProcess pm' p, db'', .resolved p⟩
  | ⟨pm', db', _⟩ => ⟨pm', db', .unsettled⟩

/-- `ProcessManager.getJob` (lines 152-178).  Unlike `getProcess`, every path
of this method reaches `resolve(job)`. -/
def ProcessManager.getJob (pm : PMState) (db : Storage) (process : ProcessRec)
    (jobName : String) : PMOut (Option ProcessJobRec) :=
  let pm := cacheProcess pm process
  match dictGet ((dictGet pm.jobList process.name).getD []) jobName with
  | some j => ⟨pm, db, .resolved (some j)⟩
  | none =>
    match dbFindOneJob db process.id jobName with
    | .error _ => ⟨pm, db, .unsettled⟩
    | .ok (some j) => ⟨ProcessManager.cacheJob pm process j, db, .resolved (some j)⟩
    | .ok none => ⟨pm, db, .resolved none⟩

/-- `ProcessManager.createJob` (lines 185-205). -/
def ProcessManager.createJob (pm : PMState) (db : Storage) (process : ProcessRec)
    (jobName : String) (now : Nat) : PMOut ProcessJobRec :=
  let name := formatJobName jobName
  match ProcessManager.getJob pm db process name with
  | ⟨pm', db', .resolved (some j)⟩ => ⟨pm', db', .resolved j⟩
  | ⟨pm', db', .resolved none⟩ =>
    match dbCreateJob db' process.id name now with
    | .error _ => ⟨pm', db', .unsettled⟩
    | .ok (j, db'') => ⟨ProcessManager.cacheJob pm' process j, db'', .resolved j⟩
  | ⟨pm', db', _⟩ => ⟨pm', db', .unsettled⟩

/-! ## Machine (src/process/machine.ts and the variant holding the cache
methods).  These methods read and append storage rows; the local in-memory
dictionaries some of them additionally populate are never consulted for the
returned value, so the embedding records the storage and the promise
outcome. -/

structure MachineJobLogFilters where
  offset : Option Nat
  limit : Option Nat
  type : Option String
deriving Repr, DecidableEq

def MACHINE_JOB_LOG_FILTERS_DEFAULT : MachineJobLogFilters :=
  ⟨none, none, none⟩

/-- The `IN` list `filters.type ? [filters.type] : [Object.values(ProcessLogTypes)]`.
A present, non-empty type gives a scalar singleton; a missing type (or the
falsy empty string) gives a singleton holding the whole nested values array. -/
def logTypeInList (t : Option String) : List SqlVal :=
  match t with
  | some s => if s = "" then [.tuple allLogTypes] else [.str s]
  | none => [.tuple allLogTypes]

/-- `Machine.getProcessLogs` (machine.ts lines 151-175): logs of a process on
this machine, optionally type-filtered and paginated, ascending by creation
time. -/
def Machine.getProcessLogs (machine : String) (db : Storage) (process : ProcessRec)
    (filters : MachineJobLogFilters) : PResult (List LogRec) :=
  match dbFindAllLogs db process.id none machine (logTypeInList filters.type)
      filters.limit filters.offset with
  | .error _ => .unsettled
  | .ok rows => .resolved rows

/-- `Machine.getJobLogs` (machine.ts lines 183-208). -/
def Machine.getJobLogs (machine : String) (db : Storage) (job : ProcessJobRec)
    (filters : MachineJobLogFilters) : PResult (List LogRec) :=
  match dbFindAllLogs db job.process (some job.id) machine (logTypeInList filters.type)
      filters.limit filters.offset with
  | .error _ => .unsettled
  | .ok rows => .resolved rows

/-- `Machine.createLog` (machine.ts lines 210-231). -/
def Machine.createLog (machine : String) (db : Storage) (process : ProcessRec)
    (job : ProcessJobRec) (message logType : String) (now : Nat) :
    Storage × PResult Unit :=
  match dbCreateLog db process.id job.id machine logType message now with
  | .error _ => (db, .unsettled)
  | .ok db' => (db', .resolved ())

/-- `Machine.createCache` (cache-variant lines 145-161): unconditionally
insert one cache row; keys are not unique, this is an append, never an
upsert. -/
def Machine.createCache (machine : String) (db : Storage) (process : ProcessRec)
    (job : ProcessJobRec) (key value : String) (now : Nat) :
    Storage × PResult Unit :=
  match dbCreateCache db process.id job.id machine key value now with
  | .error _ => (db, .unsettled)
  | .ok db' => (db', .resolved ())

/-- `Machine.getCache` (cache-variant lines 169-185). -/
def Machine.getCache (machine : String) (db : Storage) (process : ProcessRec)
    (job : ProcessJobRec) (key : String) : PResult (List CacheRec) :=
  match dbFindAllCacheKey db process.id job.id machine key with
  | .error _ => .unsettled
  | .ok rows => .resolved rows

/-- `Machine.hasCacheKey` (cache-variant lines 193-212): `count > 0`. -/
def Machine.hasCacheKey (machine : String) (db : Storage) (process : ProcessRec)
    (job : ProcessJobRec) (key : String) : PResult Bool :=
  match dbCountCacheKey db process.id job.id machine key with
  | .error _ => .unsettled
  | .ok n => .resolved (decide (n > 0))

/-- `Machine.hasCache` (cache-variant lines 219-238): `count > 0` over the
whole (process, job, machine) scope. -/
def Machine.hasCache (machine : String) (db : Storage) (process : ProcessRec)
    (job : ProcessJobRec) : PResult Bool :=
  match dbCountCache db process.id job.id machine with
  | .error _ => .unsettled
  | .ok n => .resolved (decide (n > 0))

/-- Modelled from the spec: `Machine.getFullCache` is called by
`Job.syncCache` and `Job.getFullCache` but its definition is missing from the
sources (only the callers exist).  Spec section 4.4 describes it as the full
fetch of the cache entries of the (process, job, machine) scope, and the
ordering invariant of section 3 makes multi-row cache reads ascending by
creation time. -/
def Machine.getFullCache (machine : String) (db : Storage) (process : ProcessRec)
    (job : ProcessJobRec) : PResult (List CacheRec) :=
  match dbFindAllCacheAll db process.id job.id machine with
  | .error _ => .unsettled
  | .ok rows => .resolved rows

/-! ## Job facade (abstract Job class with syncCache) -/

/-- The two materialized views held by the `Job` facade: the flat id-to-entry
map `cacheResults` and the key-then-id tree `cacheTree`. -/
structure JobState where
  cacheResults : List (Nat × CacheRec)
  cacheTree : List (String × List (Nat × CacheRec))
deriving Repr, DecidableEq

def JobState.empty : JobState :=
  ⟨[], []⟩

/-- One iteration of the `syncCache` loop: ensure the key bucket exists, then
set `cacheTree[key][id]` and `cacheResults[id]`. -/
def Job.syncStep (st : JobState) (r : CacheRec) : JobState :=
  let tree := if (dictGet st.cacheTree r.key).isSome then st.cacheTree
    else dictPut st.cacheTree r.key []
  let inner := (dictGet tree r.key).getD []
  { cacheResults := dictPut st.cacheResults r.id r
    cacheTree := dictPut tree r.key (dictPut inner r.id r) }

/-- `Job.syncCache` (abstract Job, lines 120-138): assign `{}` to both views,
then repopulate them from a full fetch of the cache entries. -/
def Job.syncCache (st : JobState) (machine : String) (db : Storage)
    (process : ProcessRec) (job : ProcessJobRec) : PResult JobState :=
  let st := { st with cacheResults := [], cacheTree := [] }
  match Machine.getFullCache machine db process job with
  | .resolved rows => .resolved (rows.foldl Job.syncStep st)
  | _ => .unsettled

/-- Total number of entries stored in the key-then-id tree. -/
def treeSize (t : List (String × List (Nat × CacheRec))) : Nat :=
  (t.map (fun kv => kv.2.length)).sum

/-! ## Concrete fixtures used by witnesses and counterexamples -/

/-- A storage holding exactly one process row, named `"foo"`. -/
def dbWithFoo : Storage :=
  { emptyStorage with processRows := [⟨1, "foo", 5, 0⟩], nextProcessId := 2 }

/-- A storage whose backing engine raises `"boom"` on every call. -/
def failingStorage : Storage :=
  { emptyStorage with fail := some "boom" }

def procFixture : ProcessRec :=
  ⟨1, "p", 0, 0⟩

def jobFixture : ProcessJobRec :=
  ⟨2, 1, "j", 0, 0⟩

def logA : LogRec :=
  ⟨1, 7, 3, "m", "GENERIC", "a", 30, 0⟩

def logB : LogRec :=
  ⟨2, 7, 3, "m", "WARNING", "b", 10, 0⟩

def logC : LogRec :=
  ⟨3, 7, 3, "m", "GENERIC", "c", 20, 0⟩

def logD : LogRec :=
  ⟨4, 7, 4, "m", "GENERIC", "d", 5, 0⟩

/-- A storage holding four log rows of process 7 (three of job 3, one of job
4) with mixed types and out-of-order creation times. -/
def logDb : Storage :=
  { emptyStorage with logRows := [logA, logB, logC, logD], nextLogId := 5 }

def proc7 : ProcessRec :=
  ⟨7, "p", 0, 0⟩

def job3 : ProcessJobRec :=
  ⟨3, 7, "j", 0, 0⟩

def cacheR1 : CacheRec :=
  ⟨1, 1, 2, "m", "a", "v1", 1, 0⟩

def cacheR2 : CacheRec :=
  ⟨2, 1, 2, "m", "a", "v2", 2, 0⟩

def cacheR3 : CacheRec :=
  ⟨3, 1, 2, "m", "b", "v3", 3, 0⟩

def cacheR4 : CacheRec :=
  ⟨4, 1, 2, "m", "b", "v4", 4, 0⟩

/-- Storage after three `createCache` calls with keys a, a, b. -/
def syncDb3 : Storage :=
  (Machine.createCache "m"
    (Machine.createCache "m"
      (Machine.createCache "m" emptyStorage procFixture jobFixture "a" "v1" 1).1
      procFixture jobFixture "a" "v2" 2).1
    procFixture jobFixture "b" "v3" 3).1

/-- Storage after one further `createCache` call with key b. -/
def syncDb4 : Storage :=
  (Machine.createCache "m" syncDb3 procFixture jobFixture "b" "v4" 4).1

/-- The views `syncCache` builds from `syncDb3`. -/
def syncSt1 : JobState :=
  ⟨[(1, cacheR1), (2, cacheR2), (3, cacheR3)],
    [("a", [(1, cacheR1), (2, cacheR2)]), ("b", [(3, cacheR3)])]⟩

/-- The views `syncCache` builds from `syncDb4`. -/
def syncSt2 : JobState :=
  ⟨[(1, cacheR1), (2, cacheR2), (3, cacheR3), (4, cacheR4)],
    [("a", [(1, cacheR1), (2, cacheR2)]), ("b", [(3, cacheR3), (4, cacheR4)])]⟩

/-! ## Lemmas about the normalizer -/

theorem toNat_ofNat_valid (n : Nat) (h : n.isValidChar) : (Char.ofNat n).toNat = n := by
  rw [Char.ofNat, dif_pos h]
  rfl

theorem char_toLower_idem (c : Char) : c.toLower.toLower = c.toLower := by
  unfold Char.toLower
  by_cases h : c.toNat ≥ 65 ∧ c.toNat ≤ 90
  · rw [if_pos h]
    have hv : (c.toNat + 32).isValidChar := Or.inl (by omega)
    have ht : (Char.ofNat (c.toNat + 32)).toNat = c.toNat + 32 := toNat_ofNat_valid _ hv
    rw [if_neg (by rw [ht]; omega)]
  · rw [if_neg h, if_neg h]

theorem collapseRuns_idem (p : Char → Bool) (hp : p '-' = true) :
    ∀ (l : List Char) (b : Bool),
      collapseRuns p b (collapseRuns p b l) = collapseRuns p b l := by
  intro l
  induction l with
  | nil => intro b; rfl
  | cons c cs ih =>
    intro b
    cases hc : p c with
    | true =>
      cases b with
      | true =>
        simp only [collapseRuns, hc, if_pos rfl]
        exact ih true
      | false =>
        simp only [collapseRuns, hc, hp, if_pos rfl]
        exact congrArg (List.cons '-') (ih true)
    | false =>
      simp only [collapseRuns, hc]
      simp only [Bool.false_eq_true, if_false]
      exact congrArg (List.cons c) (ih false)

theorem mem_collapseRuns (p : Char → Bool) :
    ∀ (l : List Char) (b : Bool) (c : Char), c ∈ collapseRuns p b l →
      c = '-' ∨ (c ∈ l ∧ p c = false) := by
  intro l
  induction l with
  | nil => intro b c h; simp [collapseRuns] at h
  | cons d cs ih =>
    intro b c h
    cases hd : p d with
    | true =>
      cases b with
      | true =>
        simp only [collapseRuns, hd, if_true] at h
        rcases ih true c h with h' | ⟨hmem, hpc⟩
        · exact Or.inl h'
        · exact Or.inr ⟨List.mem_cons_of_mem d hmem, hpc⟩
      | false =>
        simp only [collapseRuns, hd, if_true, if_false] at h
        rcases List.mem_cons.mp h with h' | h'
        · exact Or.inl h'
        · rcases ih true c h' with h'' | ⟨hmem, hpc⟩
          · exact Or.inl h''
          · exact Or.inr ⟨List.mem_cons_of_mem d hmem, hpc⟩
    | false =>
      simp only [collapseRuns, hd, if_false] at h
      rcases List.mem_cons.mp h with h' | h'
      · exact Or.inr ⟨h' ▸ List.mem_cons_self d cs, h' ▸ hd⟩
      · rcases ih false c h' with h'' | ⟨hmem, hpc⟩
        · exact Or.inl h''
        · exact Or.inr ⟨List.mem_cons_of_mem d hmem, hpc⟩

theorem head_collapseRuns_true (p : Char → Bool) :
    ∀ (l : List Char) (c : Char), (collapseRuns p true l).head? = some c →
      p c = false := by
  intro l
  induction l with
  | nil => intro c h; simp [collapseRuns] at h
  | cons d cs ih =>
    intro c h
    cases hd : p d with
    | true =>
      simp only [collapseRuns, hd, if_true] at h
      exact ih c h
    | false =>
      simp only [collapseRuns, hd, Bool.false_eq_true, if_false,
        List.head?_cons, Option.some_inj] at h
      rw [← h]
      exact hd

theorem collapseRuns_true_eq_false (q : Char → Bool) (x : List Char)
    (hx : ∀ c, x.head? = some c → q c = false) :
    collapseRuns q true x = collapseRuns q false x := by
  cases x with
  | nil => rfl
  | cons c cs =>
    have hc := hx c rfl
    simp only [collapseRuns, hc, Bool.false_eq_true, if_false]

theorem collapseRuns_subsume (p q : Char → Bool)
    (hsub : ∀ c, q c = true → p c = true) (hqd : q '-' = true) :
    ∀ (l : List Char) (b : Bool),
      collapseRuns q false (collapseRuns p b l) = collapseRuns p b l := by
  intro l
  induction l with
  | nil => intro b; rfl
  | cons c cs ih =>
    intro b
    have hqp : ∀ c', p c' = false → q c' = false := by
      intro c' hpc'
      cases hq : q c' with
      | false => rfl
      | true => rw [hsub c' hq] at hpc'; cases hpc'
    cases hc : p c with
    | true =>
      cases b with
      | true =>
        simp only [collapseRuns, hc, if_true]
        exact ih true
      | false =>
        simp only [collapseRuns, hc, hqd, if_true, if_false]
        have hhead : collapseRuns q true (collapseRuns p true cs)
            = collapseRuns q false (collapseRuns p true cs) :=
          collapseRuns_true_eq_false q _
            (fun c' hc' => hqp c' (head_collapseRuns_true p cs c' hc'))
        rw [hhead]
        exact congrArg (List.cons '-') (ih true)
    | false =>
      simp only [collapseRuns, hc, hqp c hc, if_false]
      exact congrArg (List.cons c) (ih false)

theorem not_space_of_mem_collapseSep (l : List Char) (b : Bool) (c : Char)
    (h : c ∈ collapseRuns isSepChar b l) : isJsSpace c = false := by
  rcases mem_collapseRuns isSepChar l b c h with h' | ⟨_, hpc⟩
  · subst h'; rfl
  · cases hs : isJsSpace c with
    | false => rfl
    | true => simp [isSepChar, hs] at hpc

theorem dropWhile_eq_self {p : Char → Bool} {l : List Char}
    (h : ∀ c ∈ l, p c = false) : l.dropWhile p = l := by
  cases l with
  | nil => rfl
  | cons c cs => simp [List.dropWhile_cons, h c (List.mem_cons_self c cs)]

theorem trimChars_eq_self {l : List Char}
    (h : ∀ c ∈ l, isJsSpace c = false) : trimChars l = l := by
  unfold trimChars
  rw [dropWhile_eq_self h,
    dropWhile_eq_self (fun c hc => h c (List.mem_reverse.mp hc)),
    List.reverse_reverse]

theorem map_toLower_eq_self {l : List Char}
    (h : ∀ c ∈ l, Char.toLower c = c) : l.map Char.toLower = l := by
  induction l with
  | nil => rfl
  | cons c cs ih =>
    simp only [List.map_cons, h c (List.mem_cons_self c cs)]
    exact congrArg (List.cons c)
      (ih (fun c' hc' => h c' (List.mem_cons_of_mem c hc')))

theorem dash_subsume : ∀ c, isDashChar c = true → isSepChar c = true := by
  intro c hc
  have : c = '-' := by simpa [isDashChar] using hc
  subst this
  rfl

theorem formatName_eq (l : List Char) :
    formatName l
      = collapseRuns isSepChar false ((trimChars l).map Char.toLower) := by
  unfold formatName
  have hns : ∀ c ∈ collapseRuns isSepChar false ((trimChars l).map Char.toLower),
      isJsSpace c = false :=
    fun c hc => not_space_of_mem_collapseSep _ false c hc
  rw [trimChars_eq_self hns,
    collapseRuns_subsume isSepChar isDashChar dash_subsume rfl _ false,
    trimChars_eq_self hns]

theorem formatName_idem (l : List Char) :
    formatName (formatName l) = formatName l := by
  rw [formatName_eq l]
  rw [formatName_eq]
  have hns : ∀ c ∈ collapseRuns isSepChar false ((trimChars l).map Char.toLower),
      isJsSpace c = false :=
    fun c hc => not_space_of_mem_collapseSep _ false c hc
  rw [trimChars_eq_self hns]
  have hfix : ∀ c ∈ collapseRuns isSepChar false ((trimChars l).map Char.toLower),
      Char.toLower c = c := by
    intro c hc
    rcases mem_collapseRuns isSepChar _ false c hc with h' | ⟨hmem, _⟩
    · subst h'; rfl
    · rcases List.mem_map.mp hmem with ⟨a, _, ha⟩
      rw [← ha]
      exact char_toLower_idem a
  rw [map_toLower_eq_self hfix]
  exact collapseRuns_idem isSepChar rfl _ false

theorem formatProcessName_idem (s : String) :
    formatProcessName (formatProcessName s) = formatProcessName s := by
  show (⟨formatName (formatName s.data)⟩ : String) = ⟨formatName s.data⟩
  exact congrArg (fun l => (⟨l⟩ : String)) (formatName_idem s.data)

/-! ## Lemmas about dictionaries and the storage model -/

theorem dictGet_dictPut_self {κ α : Type} [DecidableEq κ] [BEq κ] [LawfulBEq κ]
    (d : List (κ × α)) (k : κ) (v : α) : dictGet (dictPut d k v) k = some v := by
  induction d with
  | nil => simp [dictPut, dictGet, List.lookup]
  | cons kv rest ih =>
    obtain ⟨k', v'⟩ := kv
    by_cases hk : k' = k
    · simp [dictPut, hk, dictGet, List.lookup]
    · have hkk : (k == k') = false := beq_false_of_ne (fun he => hk he.symm)
      simp only [dictPut, if_neg hk]
      simpa [dictGet, List.lookup, hkk] using ih

theorem dbFindOneProcess_name {db : Storage} {name : String} {p : ProcessRec}
    (h : dbFindOneProcess db name = .ok (some p)) : p.name = name := by
  unfold dbFindOneProcess at h
  split at h
  · cases h
  · have hfind : db.processRows.find? (fun r => decide (r.name = name)) = some p :=
      Except.ok.inj h
    have hp := List.find?_some hfind
    exact of_decide_eq_true hp

/-! ## The claims -/

/-- C4: the name normalizer maps `"Foo Bar"` to `"foo-bar"` and `"a--b***c"`
to `"a-b-c"`, but it maps `"  Hello, World.  "` to `"hello-world-"`, not to
`"hello-world"`: the trailing period is collapsed into a dash and the final
trims remove only whitespace, never dashes.  This theorem refutes the third
example of the claim at that concrete input. -/
theorem c4_normalizer_third_example_false :
    formatProcessName "  Hello, World.  " = "hello-world-"
    ∧ formatProcessName "  Hello, World.  " ≠ "hello-world" := by
  constructor
  · decide
  · decide

/-- C4 (amended): the normalizer maps `"Foo Bar"` to `"foo-bar"` and
`"a--b***c"` to `"a-b-c"`; the third input `"  Hello, World.  "` yields
`"hello-world-"`, with a trailing dash produced from the trailing period. -/
theorem c4_normalizer_examples :
    formatProcessName "Foo Bar" = "foo-bar"
    ∧ formatProcessName "a--b***c" = "a-b-c"
    ∧ formatProcessName "  Hello, World.  " = "hello-world-" := by
  refine ⟨by decide, by decide, by decide⟩

/-- C5: the name normalizer is idempotent — normalizing an already-normalized
string returns it unchanged — and the empty input yields the empty output. -/
theorem c5_normalizer_idempotent :
    (∀ s : String, formatProcessName (formatProcessName s) = formatProcessName s)
    ∧ formatProcessName "" = "" := by
  exact ⟨formatProcessName_idem, rfl⟩

/-- C2: in one in-memory session starting from empty storage,
`createProcess "Foo"` called twice (at any two timestamps) resolves both
times with the same record (in particular the same id), storage afterwards
holds exactly one process row, named `"foo"`, and the second call performs no
insert (the storage after the second call is the storage after the first). -/
theorem c2_createProcess_twice (t1 t2 : Nat) :
    (ProcessManager.createProcess PMState.empty emptyStorage "Foo" t1).res
        = .resolved ⟨1, "foo", t1, 0⟩
    ∧ (ProcessManager.createProcess
          (ProcessManager.createProcess PMState.empty emptyStorage "Foo" t1).pm
          (ProcessManager.createProcess PMState.empty emptyStorage "Foo" t1).db
          "Foo" t2).res
        = .resolved ⟨1, "foo", t1, 0⟩
    ∧ (ProcessManager.createProcess PMState.empty emptyStorage "Foo" t1).db.processRows
        = [⟨1, "foo", t1, 0⟩]
    ∧ (ProcessManager.createProcess
          (ProcessManager.createProcess PMState.empty emptyStorage "Foo" t1).pm
          (ProcessManager.createProcess PMState.empty emptyStorage "Foo" t1).db
          "Foo" t2).db
        = (ProcessManager.createProcess PMState.empty emptyStorage "Foo" t1).db := by
  refine ⟨rfl, rfl, rfl, rfl⟩

/-- C1: when the in-memory index lacks `name` but storage holds a process row
with that exact name, `getProcess` caches the fetched record in the index yet
its promise never settles; in general `getProcess` settles exactly when the
name is already indexed or storage has no matching row; consequently the
first `createProcess` of a fresh session, for a process that already exists
in storage under its normalized name, never completes. -/
theorem c1_getProcess_fetch_never_settles
    (pm pm2 : PMState) (db db2 db3 : Storage) (name n2 n3 : String)
    (p q : ProcessRec) (t : Nat)
    (h1 : dictGet pm.processList name = none)
    (h2 : dbFindOneProcess db name = .ok (some p))
    (h3 : dbFindOneProcess db3 (formatProcessName n3) = .ok (some q)) :
    (ProcessManager.getProcess pm db name).res = .unsettled
    ∧ dictGet (ProcessManager.getProcess pm db name).pm.processList name = some p
    ∧ ((ProcessManager.getProcess pm2 db2 n2).res ≠ .unsettled
        ↔ (dictGet pm2.processList n2).isSome ∨ dbFindOneProcess db2 n2 = .ok none)
    ∧ (ProcessManager.createProcess PMState.empty db3 n3 t).res = .unsettled := by
  refine ⟨?_, ?_, ?_, ?_⟩
  · simp [ProcessManager.getProcess, h1, h2]
  · have hpn : p.name = name := dbFindOneProcess_name h2
    simp only [ProcessManager.getProcess, h1, Option.isNone_none, if_true, h2]
    simp only [cacheProcess, hpn, h1, Option.isSome_none, Bool.false_eq_true, if_false]
    exact dictGet_dictPut_self pm.processList name p
  · cases hs : dictGet pm2.processList n2 with
    | some r => simp [ProcessManager.getProcess, hs]
    | none =>
      cases hf : dbFindOneProcess db2 n2 with
      | error e => simp [ProcessManager.getProcess, hs, hf]
      | ok o =>
        cases o with
        | some r => simp [ProcessManager.getProcess, hs, hf]
        | none => simp [ProcessManager.getProcess, hs, hf]
  · simp [ProcessManager.createProcess, ProcessManager.getProcess, h3,
      PMState.empty, dictGet, List.lookup]

/-- Witness for C1: a fresh manager, a storage holding the row
`⟨1, "foo", 5, 0⟩`, and the raw name `"Foo"` (normalizing to `"foo"`). -/
theorem c1_witness :
    (dictGet PMState.empty.processList "foo" = none
      ∧ dbFindOneProcess dbWithFoo "foo" = .ok (some ⟨1, "foo", 5, 0⟩)
      ∧ dbFindOneProcess dbWithFoo (formatProcessName "Foo") = .ok (some ⟨1, "foo", 5, 0⟩))
    ∧ ((ProcessManager.getProcess PMState.empty dbWithFoo "foo").res = .unsettled
      ∧ dictGet (ProcessManager.getProcess PMState.empty dbWithFoo "foo").pm.processList "foo"
          = some ⟨1, "foo", 5, 0⟩
      ∧ ((ProcessManager.getProcess PMState.empty emptyStorage "x").res ≠ .unsettled
          ↔ (dictGet PMState.empty.processList "x").isSome
            ∨ dbFindOneProcess emptyStorage "x" = .ok none)
      ∧ (ProcessManager.createProcess PMState.empty dbWithFoo "Foo" 0).res = .unsettled) :=
  ⟨⟨rfl, rfl, rfl⟩,
    c1_getProcess_fetch_never_settles PMState.empty PMState.empty dbWithFoo emptyStorage
      dbWithFoo "foo" "x" "Foo" ⟨1, "foo", 5, 0⟩ ⟨1, "foo", 5, 0⟩ 0
      rfl rfl rfl⟩

/-- C6: `getProcess` does not normalize its argument.  With the exact name in
the index it resolves the indexed record, leaving state and storage alone;
with a miss in both the index and storage it resolves null, creating nothing;
a stored `"foo"` row is therefore missed by `getProcess "Foo"`.
`createProcess`, by contrast, normalizes first: on any raw name it behaves
identically to itself on the normalized name. -/
theorem c6_getProcess_exact_name
    (pm pm2 pm3 : PMState) (db db2 db3 : Storage) (name n2 n3 : String)
    (p : ProcessRec) (t3 : Nat)
    (h1 : dictGet pm.processList name = some p)
    (h2 : dictGet pm2.processList n2 = none)
    (h3 : dbFindOneProcess db2 n2 = .ok none) :
    ProcessManager.getProcess pm db name = ⟨pm, db, .resolved (some p)⟩
    ∧ ProcessManager.getProcess pm2 db2 n2 = ⟨pm2, db2, .resolved none⟩
    ∧ (ProcessManager.getProcess PMState.empty dbWithFoo "Foo").res = .resolved none
    ∧ ProcessManager.createProcess pm3 db3 n3 t3
        = ProcessManager.createProcess pm3 db3 (formatProcessName n3) t3 := by
  refine ⟨?_, ?_, by decide, ?_⟩
  · simp [ProcessManager.getProcess, h1]
  · simp [ProcessManager.getProcess, h2, h3]
  · unfold ProcessManager.createProcess
    rw [formatProcessName_idem]

/-- Witness for C6: an index holding `"a"`, and a fresh manager over empty
storage looking up `"b"`. -/
theorem c6_witness :
    (dictGet (⟨[("a", procFixture)], [], []⟩ : PMState).processList "a" = some procFixture
      ∧ dictGet PMState.empty.processList "b" = none
      ∧ dbFindOneProcess emptyStorage "b" = .ok none)
    ∧ (ProcessManager.getProcess ⟨[("a", procFixture)], [], []⟩ emptyStorage "a"
          = ⟨⟨[("a", procFixture)], [], []⟩, emptyStorage, .resolved (some procFixture)⟩
      ∧ ProcessManager.getProcess PMState.empty emptyStorage "b"
          = ⟨PMState.empty, emptyStorage, .resolved none⟩
      ∧ (ProcessManager.getProcess PMState.empty dbWithFoo "Foo").res = .resolved none
      ∧ ProcessManager.createProcess PMState.empty emptyStorage "b" 0
          = ProcessManager.createProcess PMState.empty emptyStorage (formatProcessName "b") 0) :=
  ⟨⟨rfl, rfl, rfl⟩,
    c6_getProcess_exact_name ⟨[("a", procFixture)], [], []⟩ PMState.empty PMState.empty
      emptyStorage emptyStorage emptyStorage "a" "b" "b" procFixture 0
      rfl rfl rfl⟩

/-- C3: the claim fails on the code.  A storage error is neither retried nor
caught by this layer, but it does not propagate to the caller either: every
operation wraps an async executor in `new Promise`, so the awaited rejection
is lost and the returned promise never settles — at the concrete storage that
raises `"boom"`, each modeled operation yields an unsettled promise and in
particular does not reject with `"boom"`; moreover `getProcess` and
`createProcess` can never produce a rejected promise at all. -/
theorem c3_storage_error_not_propagated :
    ((ProcessManager.createProcess PMState.empty failingStorage "foo" 0).res = .unsettled
      ∧ (ProcessManager.createProcess PMState.empty failingStorage "foo" 0).res ≠ .rejected "boom"
      ∧ (ProcessManager.createJob PMState.empty failingStorage procFixture "j" 0).res = .unsettled
      ∧ (Machine.createLog "m" failingStorage procFixture jobFixture "msg" "GENERIC" 0).2 = .unsettled
      ∧ (Machine.createCache "m" failingStorage procFixture jobFixture "k" "v" 0).2 = .unsettled
      ∧ (Machine.createCache "m" failingStorage procFixture jobFixture "k" "v" 0).2 ≠ .rejected "boom"
      ∧ Machine.getCache "m" failingStorage procFixture jobFixture "k" = .unsettled
      ∧ Machine.hasCacheKey "m" failingStorage procFixture jobFixture "k" = .unsettled
      ∧ Machine.hasCache "m" failingStorage procFixture jobFixture = .unsettled
      ∧ Machine.getProcessLogs "m" failingStorage procFixture ⟨none, none, some "GENERIC"⟩ = .unsettled)
    ∧ (∀ (pm : PMState) (db : Storage) (n : String) (e : String),
        (ProcessManager.getProcess pm db n).res ≠ .rejected e)
    ∧ (∀ (pm : PMState) (db : Storage) (n : String) (t : Nat) (e : String),
        (ProcessManager.createProcess pm db n t).res ≠ .rejected e) := by
  refine ⟨by decide, ?_, ?_⟩
  · intro pm db n e
    unfold ProcessManager.getProcess
    by_cases h : (dictGet pm.processList n).isNone
    · simp only [h, if_true]
      cases hf : dbFindOneProcess db n with
      | error err => simp
      | ok o =>
        cases o with
        | some r => simp
        | none => simp
    · simp [h]
  · intro pm db n t e
    cases hg : ProcessManager.getProcess pm db (formatProcessName n) with
    | mk pm' db' res =>
      cases res with
      | resolved o =>
        cases o with
        | some r => simp [ProcessManager.createProcess, hg]
        | none =>
          cases hc : dbCreateProcess db' (formatProcessName n) t with
          | error err => simp [ProcessManager.createProcess, hg, hc]
          | ok pr =>
            obtain ⟨pnew, db''⟩ := pr
            simp [ProcessManager.createProcess, hg, hc]
      | rejected s => simp [ProcessManager.createProcess, hg]
      | unsettled => simp [ProcessManager.createProcess, hg]

/-- C7: `createCache` always appends one new cache row at the end of the
table, never removing or replacing an existing row (every old row is still
present); `getCache` resolves with exactly the rows matching
(process, job, machine, key), ordered ascending by creation time; and in the
concrete two-insert run with the same key, `getCache` returns both entries in
creation order v1, v2. -/
theorem c7_createCache_appends
    (db : Storage) (machine key value : String) (p : ProcessRec)
    (j : ProcessJobRec) (now : Nat)
    (hdb : db.fail = none) :
    (Machine.createCache machine db p j key value now).1.cacheRows
        = db.cacheRows ++ [⟨db.nextCacheId, p.id, j.id, machine, key, value, now, 0⟩]
    ∧ (∀ r ∈ db.cacheRows, r ∈ (Machine.createCache machine db p j key value now).1.cacheRows)
    ∧ (∃ l, Machine.getCache machine db p j key = .resolved l
        ∧ List.Sorted cacheLe l
        ∧ l.Perm (db.cacheRows.filter (cacheKeyMatches p.id j.id machine key)))
    ∧ Machine.getCache "m"
          (Machine.createCache "m"
            (Machine.createCache "m" emptyStorage procFixture jobFixture "k" "v1" 1).1
            procFixture jobFixture "k" "v2" 2).1
          procFixture jobFixture "k"
        = .resolved [⟨1, 1, 2, "m", "k", "v1", 1, 0⟩, ⟨2, 1, 2, "m", "k", "v2", 2, 0⟩] := by
  refine ⟨?_, ?_, ?_, by decide⟩
  · simp [Machine.createCache, dbCreateCache, hdb]
  · intro r hr
    simp [Machine.createCache, dbCreateCache, hdb]
    exact Or.inl hr
  · refine ⟨List.insertionSort cacheLe
      (db.cacheRows.filter (cacheKeyMatches p.id j.id machine key)), ?_, ?_, ?_⟩
    · simp [Machine.getCache, dbFindAllCacheKey, hdb]
    · exact List.sorted_insertionSort cacheLe _
    · exact List.perm_insertionSort cacheLe _

/-- Witness for C7 at the empty storage. -/
theorem c7_witness :
    emptyStorage.fail = none
    ∧ ((Machine.createCache "m" emptyStorage procFixture jobFixture "k" "v" 3).1.cacheRows
          = emptyStorage.cacheRows
            ++ [⟨emptyStorage.nextCacheId, procFixture.id, jobFixture.id, "m", "k", "v", 3, 0⟩]
      ∧ (∀ r ∈ emptyStorage.cacheRows,
          r ∈ (Machine.createCache "m" emptyStorage procFixture jobFixture "k" "v" 3).1.cacheRows)
      ∧ (∃ l, Machine.getCache "m" emptyStorage procFixture jobFixture "k" = .resolved l
          ∧ List.Sorted cacheLe l
          ∧ l.Perm (emptyStorage.cacheRows.filter
              (cacheKeyMatches procFixture.id jobFixture.id "m" "k")))
      ∧ Machine.getCache "m"
            (Machine.createCache "m"
              (Machine.createCache "m" emptyStorage procFixture jobFixture "k" "v1" 1).1
              procFixture jobFixture "k" "v2" 2).1
            procFixture jobFixture "k"
          = .resolved [⟨1, 1, 2, "m", "k", "v1", 1, 0⟩, ⟨2, 1, 2, "m", "k", "v2", 2, 0⟩]) :=
  ⟨rfl, c7_createCache_appends emptyStorage "m" "k" "v" procFixture jobFixture 3 rfl⟩

/-- C8: `hasCacheKey` resolves true exactly when the count of cache rows
matching (process, job, key, machine) is nonzero; `hasCache` resolves true
exactly when at least one row matches (process, job, machine), false exactly
when no row does; and immediately after one `createCache` call, `hasCache`
resolves true. -/
theorem c8_hasCache_iff_count
    (db : Storage) (p : ProcessRec) (j : ProcessJobRec) (machine key value : String)
    (now : Nat) (hdb : db.fail = none) :
    (Machine.hasCacheKey machine db p j key = .resolved true
        ↔ 0 < (db.cacheRows.filter (cacheKeyMatches p.id j.id machine key)).length)
    ∧ (Machine.hasCache machine db p j = .resolved true
        ↔ ∃ r ∈ db.cacheRows, cacheMatches p.id j.id machine r = true)
    ∧ (Machine.hasCache machine db p j = .resolved false
        ↔ ∀ r ∈ db.cacheRows, cacheMatches p.id j.id machine r = false)
    ∧ Machine.hasCache machine (Machine.createCache machine db p j key value now).1 p j
        = .resolved true := by
  refine ⟨?_, ?_, ?_, ?_⟩
  · simp [Machine.hasCacheKey, dbCountCacheKey, hdb]
  · simp [Machine.hasCache, dbCountCache, hdb, List.length_pos_iff_exists_mem,
      List.mem_filter]
  · simp [Machine.hasCache, dbCountCache, hdb, Nat.not_lt, Nat.le_zero,
      List.length_eq_zero, List.filter_eq_nil_iff]
  · simp [Machine.createCache, dbCreateCache, hdb, Machine.hasCache, dbCountCache,
      List.filter_append, cacheMatches]

/-- Witness for C8 at the empty storage. -/
theorem c8_witness :
    emptyStorage.fail = none
    ∧ ((Machine.hasCacheKey "m" emptyStorage procFixture jobFixture "k" = .resolved true
          ↔ 0 < (emptyStorage.cacheRows.filter
              (cacheKeyMatches procFixture.id jobFixture.id "m" "k")).length)
      ∧ (Machine.hasCache "m" emptyStorage procFixture jobFixture = .resolved true
          ↔ ∃ r ∈ emptyStorage.cacheRows,
              cacheMatches procFixture.id jobFixture.id "m" r = true)
      ∧ (Machine.hasCache "m" emptyStorage procFixture jobFixture = .resolved false
          ↔ ∀ r ∈ emptyStorage.cacheRows,
              cacheMatches procFixture.id jobFixture.id "m" r = false)
      ∧ Machine.hasCache "m"
            (Machine.createCache "m" emptyStorage procFixture jobFixture "k" "v" 3).1
            procFixture jobFixture
          = .resolved true) :=
  ⟨rfl, c8_hasCache_iff_count emptyStorage procFixture jobFixture "m" "k" "v" 3 rfl⟩

/-- C9: partially refuted.  With a type filter the log queries behave as the
claim says: only entries of that type, ascending by creation time, and
offset/limit pagination is applied.  But the default (empty) filter does not
return every matching entry: the code places the whole
`Object.values(ProcessLogTypes)` array as a single element of the `IN` list,
so the generated scalar `IN` comparison carries a tuple operand, the database
rejects the query, and the lost rejection leaves the returned promise forever
unsettled. -/
theorem c9_default_log_filter_breaks :
    Machine.getProcessLogs "m" logDb proc7 ⟨none, none, none⟩ = .unsettled
    ∧ Machine.getJobLogs "m" logDb job3 ⟨none, none, none⟩ = .unsettled
    ∧ Machine.getProcessLogs "m" logDb proc7 ⟨none, none, some "GENERIC"⟩
        = .resolved [logD, logC, logA]
    ∧ Machine.getJobLogs "m" logDb job3 ⟨none, none, some "GENERIC"⟩
        = .resolved [logC, logA]
    ∧ Machine.getProcessLogs "m" logDb proc7 ⟨some 1, some 1, some "GENERIC"⟩
        = .resolved [logC] := by
  refine ⟨by decide, by decide, by decide, by decide, by decide⟩

/-- C10: `syncCache` fully rebuilds both materialized views: its result never
depends on the previous contents of the views; from the storage with cache
keys a, a, b the tree has exactly the two keys a and b, with two entries
under a and one under b; and after a fourth insert a second `syncCache` —
started from the stale previous views — yields views holding exactly the four
entries, with no stale duplicates. -/
theorem c10_syncCache_rebuilds :
    (∀ (s1 s2 : JobState) (machine : String) (db : Storage) (p : ProcessRec)
        (j : ProcessJobRec),
      Job.syncCache s1 machine db p j = Job.syncCache s2 machine db p j)
    ∧ Job.syncCache JobState.empty "m" syncDb3 procFixture jobFixture = .resolved syncSt1
    ∧ syncSt1.cacheTree.map Prod.fst = ["a", "b"]
    ∧ ((dictGet syncSt1.cacheTree "a").getD []).length = 2
    ∧ ((dictGet syncSt1.cacheTree "b").getD []).length = 1
    ∧ Job.syncCache syncSt1 "m" syncDb4 procFixture jobFixture = .resolved syncSt2
    ∧ syncSt2.cacheResults.map Prod.fst = [1, 2, 3, 4]
    ∧ treeSize syncSt2.cacheTree = 4 := by
  refine ⟨fun s1 s2 machine db p j => rfl, by decide, by decide, by decide, by decide,
    by decide, by decide, by decide⟩

end JobProcess
